import Mathlib

/-!
# Verification of the unit-forge core

Shallow embedding of the unit-forge library (`unit-forge-lib`): the unit
registry construction (`unit_table.rs`) and the command parser/evaluator
(`interpretor.rs`).  Rust `f64` values are modelled by an exact
floating-point-like type `FP` (rationals extended with infinities and NaN,
ignoring rounding), Rust `HashMap`/`IndexMap` by association lists with
most-recent-insert-wins lookup, and the chumsky parser by a fuelled
recursive-descent parser with the same PEG-style backtracking structure.
-/

/-- Unnormalized fraction, the exact carrier for finite `f64` values.  Every
fraction built by the embedding has a positive denominator.  Arithmetic is
exact rational arithmetic; unlike `Rat` it reduces by plain structural
computation, so concrete runs of the interpreter can be checked by `decide`. -/
structure Frac where
  num : Int
  den : Int
deriving DecidableEq, Repr

/-- The rational value of a fraction. -/
def Frac.val (f : Frac) : ℚ := (f.num : ℚ) / (f.den : ℚ)

/-- Embed an integer. -/
def Frac.ofInt (n : Int) : Frac := ⟨n, 1⟩

/-- Exact fraction negation. -/
def Frac.fneg (a : Frac) : Frac := ⟨-a.num, a.den⟩

/-- Exact fraction addition. -/
def Frac.fadd (a b : Frac) : Frac := ⟨a.num * b.den + b.num * a.den, a.den * b.den⟩

/-- Exact fraction multiplication. -/
def Frac.fmul (a b : Frac) : Frac := ⟨a.num * b.num, a.den * b.den⟩

/-- Exact fraction division (divisor with non-zero numerator); the result's
denominator is kept positive. -/
def Frac.fdiv (a b : Frac) : Frac :=
  if 0 < b.num then ⟨a.num * b.den, a.den * b.num⟩
  else ⟨-(a.num * b.den), a.den * (-b.num)⟩

/-- Model of `f64` values: exact fractions extended with the IEEE special
values.  Rounding is not modelled; all arithmetic appearing in the claims is
exact. -/
inductive FP where
  | fin (q : Frac)
  | inf
  | negInf
  | nan
deriving DecidableEq, Repr

/-- IEEE negation on the `FP` model. -/
def FP.neg : FP → FP
  | .fin q => .fin q.fneg
  | .inf => .negInf
  | .negInf => .inf
  | .nan => .nan

/-- IEEE addition on the `FP` model (exact on finite values). -/
def FP.add : FP → FP → FP
  | .fin a, .fin b => .fin (a.fadd b)
  | .nan, _ => .nan
  | _, .nan => .nan
  | .inf, .negInf => .nan
  | .negInf, .inf => .nan
  | .inf, _ => .inf
  | _, .inf => .inf
  | .negInf, _ => .negInf
  | _, .negInf => .negInf

/-- IEEE subtraction on the `FP` model. -/
def FP.sub (a b : FP) : FP := FP.add a (FP.neg b)

/-- IEEE multiplication on the `FP` model (exact on finite values; the sign
of a finite operand is the sign of its numerator, denominators being
positive). -/
def FP.mul : FP → FP → FP
  | .fin a, .fin b => .fin (a.fmul b)
  | .nan, _ => .nan
  | _, .nan => .nan
  | .inf, .inf => .inf
  | .inf, .negInf => .negInf
  | .negInf, .inf => .negInf
  | .negInf, .negInf => .inf
  | .inf, .fin b => if 0 < b.num then .inf else if b.num < 0 then .negInf else .nan
  | .fin a, .inf => if 0 < a.num then .inf else if a.num < 0 then .negInf else .nan
  | .negInf, .fin b => if 0 < b.num then .negInf else if b.num < 0 then .inf else .nan
  | .fin a, .negInf => if 0 < a.num then .negInf else if a.num < 0 then .inf else .nan

/-- IEEE division on the `FP` model: dividing a non-zero finite value by zero
yields a signed infinity, `0 / 0` yields NaN (signed zeroes are not
modelled). -/
def FP.div : FP → FP → FP
  | .fin a, .fin b =>
      if b.num ≠ 0 then .fin (a.fdiv b)
      else if 0 < a.num then .inf
      else if a.num < 0 then .negInf
      else .nan
  | .nan, _ => .nan
  | _, .nan => .nan
  | .inf, .inf => .nan
  | .inf, .negInf => .nan
  | .negInf, .inf => .nan
  | .negInf, .negInf => .nan
  | .fin _, .inf => .fin ⟨0, 1⟩
  | .fin _, .negInf => .fin ⟨0, 1⟩
  | .inf, .fin b => if 0 ≤ b.num then .inf else .negInf
  | .negInf, .fin b => if 0 ≤ b.num then .negInf else .inf

/-- Association-list model of a hash map: lookup returns the most recently
inserted binding for a key (`HashMap::get`). -/
def mapLookup {K V : Type} [DecidableEq K] : List (K × V) → K → Option V
  | [], _ => none
  | (k, v) :: rest, key => if k = key then some v else mapLookup rest key

/-- Association-list model of `HashMap::insert`: the new binding shadows any
older binding for the same key. -/
def mapInsert {K V : Type} [DecidableEq K] (m : List (K × V)) (k : K) (v : V) :
    List (K × V) :=
  (k, v) :: m

/-- Decidable equality of `Except` results, so concrete interpreter runs can
be checked by `decide`. -/
instance {ε α : Type} [DecidableEq ε] [DecidableEq α] : DecidableEq (Except ε α) := fun a b =>
  match a, b with
  | .ok x, .ok y =>
      if h : x = y then .isTrue (by rw [h]) else .isFalse (by intro hc; cases hc; exact h rfl)
  | .error x, .error y =>
      if h : x = y then .isTrue (by rw [h]) else .isFalse (by intro hc; cases hc; exact h rfl)
  | .ok _, .error _ => .isFalse (by intro hc; cases hc)
  | .error _, .ok _ => .isFalse (by intro hc; cases hc)

/-- `UnitDefinition` (src/unit-forge-lib/src/units.rs): one declared unit.
`factor` is the `f64` ratio to the category's base unit (default `1.0`),
modelled exactly as a rational. -/
structure UnitDefinition where
  name : String
  symbol : String
  factor : Frac
  derived : Option String
deriving DecidableEq, Repr

/-- `UnitDefinitions`: category name → unit key → definition.  The map is
modelled as an ordered association list, reflecting the declaration/
enumeration order the construction algorithm iterates in. -/
abbrev UnitDefinitions : Type := List (String × List (String × UnitDefinition))

/-- `DefinitionError` (src/unit-forge-lib/src/lib.rs, plus the
`NoUnitDefined` variant referenced by `construct_base_units_map`). -/
inductive DefinitionError where
  | duplicatedUnit (unit category : String)
  | unitNotFound (unit expr category : String)
  | invalidDerivedExpression (expr : String)
  | noUnitDefined (category : String)
deriving DecidableEq, Repr

/-- The derived-unit algebra table `(left, op, right) → result`
(`UnitMapType`). -/
abbrev UnitMap : Type := List ((String × String × String) × String)

/-- The base-unit normalization table `unit key → (factor, base unit key)`
(`BaseUnitMapType`). -/
abbrev BaseUnitMap : Type := List (String × (Frac × String))

/-- Helper for `splitWs`: scan the characters, accumulating the current
token in reverse. -/
def splitWsAux : List Char → List Char → List String
  | [], [] => []
  | [], cur => [String.mk cur.reverse]
  | c :: rest, cur =>
      if c.isWhitespace then
        match cur with
        | [] => splitWsAux rest []
        | _ => String.mk cur.reverse :: splitWsAux rest []
      else splitWsAux rest (c :: cur)

/-- Rust `str::split_whitespace`: the maximal whitespace-free fragments. -/
def splitWs (s : String) : List String :=
  splitWsAux s.data []

/-- First pass of `construct_unit_translation_map`: collect the units of one
category into `all_units`, failing with `DuplicatedUnit` if a key is already
present. -/
def collectUnitsInCat (category : String) :
    List (String × UnitDefinition) → List (String × UnitDefinition) →
    Except DefinitionError (List (String × UnitDefinition))
  | acc, [] => .ok acc
  | acc, (unitKey, unit) :: rest =>
      if (mapLookup acc unitKey).isSome then
        .error (.duplicatedUnit unitKey category)
      else
        collectUnitsInCat category (mapInsert acc unitKey unit) rest

/-- First pass of `construct_unit_translation_map` over all categories. -/
def collectAllUnits :
    List (String × UnitDefinition) → UnitDefinitions →
    Except DefinitionError (List (String × UnitDefinition))
  | acc, [] => .ok acc
  | acc, (category, units) :: rest =>
      match collectUnitsInCat category acc units with
      | .error e => .error e
      | .ok acc' => collectAllUnits acc' rest

/-- The four insertions a multiplication step `result = current * next`
performs in `construct_unit_translation_map`. -/
def registerMul (m : UnitMap) (current next result : String) : UnitMap :=
  mapInsert (mapInsert (mapInsert (mapInsert m
    (current, "*", next) result)
    (next, "*", current) result)
    (result, "/", current) next)
    (result, "/", next) current

/-- The three insertions a division step `result = current / next` performs
in `construct_unit_translation_map`. -/
def registerDiv (m : UnitMap) (current next result : String) : UnitMap :=
  mapInsert (mapInsert (mapInsert m
    (current, "/", next) result)
    (current, "/", result) next)
    (result, "*", next) current

/-- The `while` loop of `construct_unit_translation_map`: fold the chain
`(op unit)+` left to right.  The final step's result is the unit being
defined; an intermediate step's result must already be in the map. -/
def processSteps (allUnits : List (String × UnitDefinition))
    (target category expr : String) :
    UnitMap → String → List String → Except DefinitionError UnitMap
  | m, _, [] => .ok m
  | m, _, [_] => .ok m
  | m, currentUnit, op :: nextUnit :: rest =>
      if op ≠ "*" ∧ op ≠ "/" then
        .error (.invalidDerivedExpression expr)
      else if ¬ (mapLookup allUnits nextUnit).isSome then
        .error (.unitNotFound nextUnit expr category)
      else
        match (if rest.isEmpty then some target
               else mapLookup m (currentUnit, op, nextUnit)) with
        | none =>
            .error (.invalidDerivedExpression
              s!"Cannot find intermediate unit for: {currentUnit} {op} {nextUnit}")
        | some resultUnit =>
            let m' := if op = "*" then registerMul m currentUnit nextUnit resultUnit
                      else registerDiv m currentUnit nextUnit resultUnit
            processSteps allUnits target category expr m' resultUnit rest

/-- Second pass of `construct_unit_translation_map` over the units of one
category: process each `derived` expression. -/
def processUnits (allUnits : List (String × UnitDefinition)) (category : String) :
    UnitMap → List (String × UnitDefinition) → Except DefinitionError UnitMap
  | m, [] => .ok m
  | m, (unit, unitDef) :: rest =>
      match unitDef.derived with
      | none => processUnits allUnits category m rest
      | some derivedExpr =>
          let parts := splitWs derivedExpr
          if parts.length ≥ 3 ∧ parts.length % 2 = 1 then
            match parts with
            | [] => .error (.invalidDerivedExpression derivedExpr)
            | currentUnit :: chain =>
                if ¬ (mapLookup allUnits currentUnit).isSome then
                  .error (.unitNotFound currentUnit derivedExpr category)
                else
                  match processSteps allUnits unit category derivedExpr m currentUnit chain with
                  | .error e => .error e
                  | .ok m' => processUnits allUnits category m' rest
          else
            .error (.invalidDerivedExpression derivedExpr)

/-- Second pass of `construct_unit_translation_map` over all categories. -/
def processCategories (allUnits : List (String × UnitDefinition)) :
    UnitMap → UnitDefinitions → Except DefinitionError UnitMap
  | m, [] => .ok m
  | m, (category, units) :: rest =>
      match processUnits allUnits category m units with
      | .error e => .error e
      | .ok m' => processCategories allUnits m' rest

/-- `construct_unit_translation_map` (src/unit-forge-lib/src/unit_table.rs):
build the derived-unit closure table. -/
def construct_unit_translation_map (definitions : UnitDefinitions) :
    Except DefinitionError UnitMap :=
  match collectAllUnits [] definitions with
  | .error e => .error e
  | .ok allUnits => processCategories allUnits [] definitions

/-- The per-category insertions of `construct_base_units_map`: every unit of
the category is mapped to `(its factor, the category's base unit key)`. -/
def insertUnitsOfCat (baseUnit : String) :
    BaseUnitMap → List (String × UnitDefinition) → BaseUnitMap
  | m, [] => m
  | m, (unitKey, unitDef) :: rest =>
      insertUnitsOfCat baseUnit (mapInsert m unitKey (unitDef.factor, baseUnit)) rest

/-- `construct_base_units_map` (src/unit-forge-lib/src/unit_table.rs): the
first unit of each category is its base unit; an empty category fails with
`NoUnitDefined`. -/
def construct_base_units_map :
    BaseUnitMap → UnitDefinitions → Except DefinitionError BaseUnitMap
  | m, [] => .ok m
  | m, (category, units) :: rest =>
      match units with
      | [] => .error (.noUnitDefined category)
      | (baseKey, _) :: _ =>
          construct_base_units_map (insertUnitsOfCat baseKey m units) rest

/-- `UnitTable` (src/unit-forge-lib/src/unit_table.rs). -/
structure UnitTable where
  unit_definitions : UnitDefinitions
  derived_units_map : UnitMap
  base_units_map : BaseUnitMap
deriving DecidableEq

/-- `UnitTable::new`. -/
def UnitTable.new (unit_definitions : UnitDefinitions) :
    Except DefinitionError UnitTable :=
  match construct_unit_translation_map unit_definitions with
  | .error e => .error e
  | .ok derived =>
      match construct_base_units_map [] unit_definitions with
      | .error e => .error e
      | .ok base => .ok ⟨unit_definitions, derived, base⟩

/-- Extract the table built from `defs`, with a degenerate fallback for the
error case (only used on definitions whose construction succeeds). -/
def tblOf (defs : UnitDefinitions) : UnitTable :=
  match UnitTable.new defs with
  | .ok t => t
  | .error _ => ⟨defs, [], []⟩

/-- The expression AST (`Expr` in src/unit-forge-lib/src/interpretor.rs).
`num` stores the literal's value together with its unit symbol (the empty
string when no unit was written); `to` is the explicit conversion
`expr >> unit`. -/
inductive Expr where
  | num (value : FP) (unit : String)
  | var (name : String)
  | neg (a : Expr)
  | add (a b : Expr)
  | sub (a b : Expr)
  | mul (a b : Expr)
  | div (a b : Expr)
  | assign (name : String) (rhs : Expr)
  | To (e : Expr) (unit : Option String)
deriving DecidableEq, Repr

/-- The session variable environment (`Interpretor::vars`): variable name →
(value, base unit key or `""` for dimensionless). -/
abbrev Vars : Type := List (String × (FP × String))

/-- `Interpretor::eval_expr`: recursive evaluation against the unit table,
threading the mutable variable environment (which the `assign` arm updates)
through sub-evaluations and returning it alongside the result, so that
mutations made before a failure persist exactly as with `&mut self`. -/
def eval_expr (tbl : UnitTable) : Vars → Expr → Except String (FP × String) × Vars
  | vars, .num value unitStr =>
      match mapLookup tbl.base_units_map unitStr with
      | some (factor, baseUnit) => (.ok (value.mul (.fin factor), baseUnit), vars)
      | none => (.error s!"Unknown unit: \"{unitStr}\"", vars)
  | vars, .neg a =>
      match eval_expr tbl vars a with
      | (.error e, v1) => (.error e, v1)
      | (.ok (val, unit), v1) => (.ok (val.neg, unit), v1)
  | vars, .add a b =>
      match eval_expr tbl vars a with
      | (.error e, v1) => (.error e, v1)
      | (.ok (valA, unitA), v1) =>
          match eval_expr tbl v1 b with
          | (.error e, v2) => (.error e, v2)
          | (.ok (valB, unitB), v2) =>
              if unitA ≠ unitB then
                (.error s!"Cannot evaluate \"{unitA}\" + \"{unitB}\"", v2)
              else
                (.ok (valA.add valB, unitB), v2)
  | vars, .sub a b =>
      match eval_expr tbl vars a with
      | (.error e, v1) => (.error e, v1)
      | (.ok (valA, unitA), v1) =>
          match eval_expr tbl v1 b with
          | (.error e, v2) => (.error e, v2)
          | (.ok (valB, unitB), v2) =>
              if unitA ≠ unitB then
                (.error s!"Cannot evaluate \"{unitA}\" - \"{unitB}\"", v2)
              else
                (.ok (valA.sub valB, unitB), v2)
  | vars, .mul a b =>
      match eval_expr tbl vars a with
      | (.error e, v1) => (.error e, v1)
      | (.ok (valA, unitA), v1) =>
          match eval_expr tbl v1 b with
          | (.error e, v2) => (.error e, v2)
          | (.ok (valB, unitB), v2) =>
              match mapLookup tbl.derived_units_map (unitA, "*", unitB) with
              | some newUnit => (.ok (valA.mul valB, newUnit), v2)
              | none =>
                  if unitA = "" then (.ok (valA.mul valB, unitB), v2)
                  else if unitB = "" then (.ok (valA.mul valB, unitA), v2)
                  else (.error s!"Cannot evaluate \"{unitA}\" * \"{unitB}\"", v2)
  | vars, .div a b =>
      match eval_expr tbl vars a with
      | (.error e, v1) => (.error e, v1)
      | (.ok (valA, unitA), v1) =>
          match eval_expr tbl v1 b with
          | (.error e, v2) => (.error e, v2)
          | (.ok (valB, unitB), v2) =>
              match mapLookup tbl.derived_units_map (unitA, "/", unitB) with
              | some newUnit => (.ok (valA.div valB, newUnit), v2)
              | none =>
                  if unitA = "" then (.ok (valA.div valB, unitB), v2)
                  else if unitB = "" then (.ok (valA.div valB, unitA), v2)
                  else (.error s!"Cannot evaluate \"{unitA}\" / \"{unitB}\"", v2)
  | vars, .var name =>
      match mapLookup vars name with
      | some val => (.ok val, vars)
      | none => (.error s!"Cannot find variable \"{name}\" in scope", vars)
  | vars, .assign name rhs =>
      if name = "$" then
        (.error "Cannot assign to reserved variable \"$\"", vars)
      else
        match eval_expr tbl vars rhs with
        | (.error e, v1) => (.error e, v1)
        | (.ok r, v1) => (.ok r, mapInsert v1 name r)
  | vars, .To e unit =>
      match eval_expr tbl vars e with
      | (.error er, v1) => (.error er, v1)
      | (.ok (val, curUnit), v1) =>
          match unit with
          | some unitStr =>
              match mapLookup tbl.base_units_map unitStr with
              | some (factor, baseUnit) =>
                  if curUnit ≠ baseUnit then
                    (.error s!"Cannot convert to unit \"{unitStr}\"", v1)
                  else
                    (.ok (val.div (.fin factor), unitStr), v1)
              | none => (.error s!"Unknown unit {unitStr}", v1)
          | none => (.ok (val, curUnit), v1)

/-- Skip the whitespace prefix (chumsky `padded`/`text::whitespace`). -/
def skipWs : List Char → List Char
  | [] => []
  | c :: rest => if c.isWhitespace then skipWs rest else c :: rest

/-- First character of a Rust `text::ascii::ident()`. -/
def isIdentStart (c : Char) : Bool := c.isAlpha || c = '_'

/-- Continuation character of a Rust `text::ascii::ident()`. -/
def isIdentCont (c : Char) : Bool := c.isAlphanum || c = '_'

/-- `text::ascii::ident()`: an ASCII identifier, no padding. -/
def pIdentCore : List Char → Option (String × List Char)
  | [] => none
  | c :: rest =>
      if isIdentStart c then
        some (String.mk (c :: rest.takeWhile isIdentCont), rest.dropWhile isIdentCont)
      else none

/-- `text::ascii::ident().or(just("$")).padded()` — the `ident` parser of
`Interpretor::parser`. -/
def pIdent (s : List Char) : Option (String × List Char) :=
  let s1 := skipWs s
  match pIdentCore s1 with
  | some (n, r) => some (n, skipWs r)
  | none =>
      match s1 with
      | '$' :: r => some ("$", skipWs r)
      | _ => none

/-- Numeric value of a digit list (most significant first). -/
def digitsToNat : Nat → List Char → Nat
  | acc, [] => acc
  | acc, c :: rest => digitsToNat (acc * 10 + (c.toNat - '0'.toNat)) rest

/-- `text::int(10)`: either a single `0`, or a nonzero digit followed by any
digits (no leading zeroes). -/
def pInt : List Char → Option (Nat × List Char)
  | [] => none
  | c :: rest =>
      if c = '0' then some (0, rest)
      else if c.isDigit then
        some (digitsToNat (c.toNat - '0'.toNat) (rest.takeWhile Char.isDigit),
              rest.dropWhile Char.isDigit)
      else none

/-- The `int` parser of `Interpretor::parser`:
`text::int(10).then(ident.or_not())`, defaulting to the empty unit. -/
def pNum (s : List Char) : Option (Expr × List Char) :=
  match pInt s with
  | none => none
  | some (n, r) =>
      match pIdent r with
      | some (u, r') => some (.num (.fin (.ofInt n)) u, r')
      | none => some (.num (.fin (.ofInt n)) "", r)

mutual

/-- The parenthesized alternative of `atom`: `'(' expr ')'` (no padding of
its own; the inner `expr` and the surrounding `atom` handle whitespace). -/
def pParen : Nat → List Char → Option (Expr × List Char)
  | 0, _ => none
  | fuel + 1, s =>
      match s with
      | '(' :: inner =>
          match pSum fuel inner with
          | some (e, r) =>
              match r with
              | ')' :: r' => some (e, r')
              | _ => none
          | none => none
      | _ => none

/-- The `atom` parser: `int | '(' expr ')' | ident`, padded.  Alternatives
are tried in order with rewinding on failure, as chumsky's `or` does. -/
def pAtom : Nat → List Char → Option (Expr × List Char)
  | 0, _ => none
  | fuel + 1, s =>
      match pNum (skipWs s) with
      | some (e, r) => some (e, skipWs r)
      | none =>
          match pParen fuel (skipWs s) with
          | some (e, r) => some (e, skipWs r)
          | none =>
              match pIdent (skipWs s) with
              | some (n, r) => some (.var n, skipWs r)
              | none => none

/-- The `unary` parser: `op('-').repeated().foldr(atom, Neg)`. -/
def pUnary : Nat → List Char → Option (Expr × List Char)
  | 0, _ => none
  | fuel + 1, s =>
      match skipWs s with
      | '-' :: r =>
          match pUnary fuel (skipWs r) with
          | some (e, r') => some (.neg e, r')
          | none => none
      | _ => pAtom fuel s

/-- The `product` parser: `unary (('*'|'/') unary)*`, left-associative. -/
def pProduct : Nat → List Char → Option (Expr × List Char)
  | 0, _ => none
  | fuel + 1, s =>
      match pUnary fuel s with
      | none => none
      | some (lhs, r) => pProductLoop fuel lhs r

/-- The `repeated` loop of `product`: a failed `op`-plus-operand attempt is
rewound and the loop stops. -/
def pProductLoop : Nat → Expr → List Char → Option (Expr × List Char)
  | 0, _, _ => none
  | fuel + 1, lhs, s =>
      match skipWs s with
      | '*' :: r =>
          match pUnary fuel (skipWs r) with
          | some (rhs, r') => pProductLoop fuel (.mul lhs rhs) r'
          | none => some (lhs, s)
      | '/' :: r =>
          match pUnary fuel (skipWs r) with
          | some (rhs, r') => pProductLoop fuel (.div lhs rhs) r'
          | none => some (lhs, s)
      | _ => some (lhs, s)

/-- The `sum` parser: `product (('+'|'-') product)*`, left-associative;
this is the body of the recursive `expr`. -/
def pSum : Nat → List Char → Option (Expr × List Char)
  | 0, _ => none
  | fuel + 1, s =>
      match pProduct fuel s with
      | none => none
      | some (lhs, r) => pSumLoop fuel lhs r

/-- The `repeated` loop of `sum`. -/
def pSumLoop : Nat → Expr → List Char → Option (Expr × List Char)
  | 0, _, _ => none
  | fuel + 1, lhs, s =>
      match skipWs s with
      | '+' :: r =>
          match pProduct fuel (skipWs r) with
          | some (rhs, r') => pSumLoop fuel (.add lhs rhs) r'
          | none => some (lhs, s)
      | '-' :: r =>
          match pProduct fuel (skipWs r) with
          | some (rhs, r') => pSumLoop fuel (.sub lhs rhs) r'
          | none => some (lhs, s)
      | _ => some (lhs, s)

end

/-- The `assign` parser: `ident '=' expr`. -/
def pAssign (fuel : Nat) (s : List Char) : Option (Expr × List Char) :=
  match pIdent s with
  | none => none
  | some (name, r) =>
      match r with
      | '=' :: r' =>
          match pSum fuel r' with
          | some (rhs, rr) => some (.assign name rhs, rr)
          | none => none
      | _ => none

/-- The `to` parser: `expr ('>>' ident)?`; a failed `'>>' ident` group is
rewound by `or_not`. -/
def pTo (fuel : Nat) (s : List Char) : Option (Expr × List Char) :=
  match pSum fuel s with
  | none => none
  | some (e, r) =>
      match skipWs r with
      | '>' :: '>' :: r2 =>
          match pIdent (skipWs r2) with
          | some (u, r3) => some (.To e (some u), r3)
          | none => some (.To e none, r)
      | _ => some (.To e none, r)

/-- The whole-command parser `assign.or(to).padded()`, as run by
`Parser::parse`: the input must be consumed entirely. -/
def parseCommand (command : String) : Option Expr :=
  let s := command.data
  let fuel := 8 * s.length + 16
  match pAssign fuel s with
  | some (e, r) => if skipWs r = [] then some e else none
  | none =>
      match pTo fuel s with
      | some (e, r) => if skipWs r = [] then some e else none
      | none => none

/-- `Interpretor::execute_command`: parse, evaluate, and on success store the
result under the reserved variable `$`.  The final variable environment is
returned alongside the result. -/
def execute_command (tbl : UnitTable) (vars : Vars) (command : String) :
    Except String (FP × String) × Vars :=
  match parseCommand command with
  | none => (.error "parse error", vars)
  | some parsed =>
      match eval_expr tbl vars parsed with
      | (.error e, v1) => (.error e, v1)
      | (.ok result, v1) => (.ok result, mapInsert v1 "$" result)

/-- Scenario definitions `{length: m (factor 1.0), cm (factor 0.01)}`. -/
def defsLenM : UnitDefinitions :=
  [("length", [("m", ⟨"meter", "m", ⟨1, 1⟩, none⟩),
               ("cm", ⟨"centimeter", "cm", ⟨1, 100⟩, none⟩)])]

/-- Definitions with a division-derived unit:
`{length: m; time: s; speed: mps = m / s}`. -/
def defsSpeed : UnitDefinitions :=
  [("length", [("m", ⟨"meter", "m", ⟨1, 1⟩, none⟩)]),
   ("time", [("s", ⟨"second", "s", ⟨1, 1⟩, none⟩)]),
   ("speed", [("mps", ⟨"meters per second", "m/s", ⟨1, 1⟩, some "m / s"⟩)])]

/-- Chain-derivation definitions, enumerated with `m2` before `m3`:
`{length: m; area: m2 = m * m; volume: m3 = m * m * m}`. -/
def defsVol : UnitDefinitions :=
  [("length", [("m", ⟨"meter", "m", ⟨1, 1⟩, none⟩)]),
   ("area", [("m2", ⟨"square meter", "m2", ⟨1, 1⟩, some "m * m"⟩)]),
   ("volume", [("m3", ⟨"cubic meter", "m3", ⟨1, 1⟩, some "m * m * m"⟩)])]

/-- The same definitions as `defsVol`, enumerated with `m3` before `m2`. -/
def defsVolBad : UnitDefinitions :=
  [("volume", [("m3", ⟨"cubic meter", "m3", ⟨1, 1⟩, some "m * m * m"⟩)]),
   ("area", [("m2", ⟨"square meter", "m2", ⟨1, 1⟩, some "m * m"⟩)]),
   ("length", [("m", ⟨"meter", "m", ⟨1, 1⟩, none⟩)])]

/-- Definitions whose first declared unit of `length` carries factor 1000. -/
def defsKmFirst : UnitDefinitions :=
  [("length", [("km", ⟨"kilometer", "km", ⟨1000, 1⟩, none⟩),
               ("m", ⟨"meter", "m", ⟨1, 1⟩, none⟩)])]

/-- The derived-unit table built from `defsSpeed`. -/
def speedMap : UnitMap :=
  match construct_unit_translation_map defsSpeed with
  | .ok m => m
  | .error _ => []

/-- The derived-unit table built from `defsVol`. -/
def volMap : UnitMap :=
  match construct_unit_translation_map defsVol with
  | .ok m => m
  | .error _ => []

/-- An expression contains no assignment node. -/
def assignFree : Expr → Bool
  | .num _ _ => true
  | .var _ => true
  | .neg a => assignFree a
  | .add a b => assignFree a && assignFree b
  | .sub a b => assignFree a && assignFree b
  | .mul a b => assignFree a && assignFree b
  | .div a b => assignFree a && assignFree b
  | .assign _ _ => false
  | .To e _ => assignFree e

/-- An expression has assignments at most at its root. -/
def topAssignOnly : Expr → Bool
  | .assign _ rhs => assignFree rhs
  | e => assignFree e

/-- No derived expression of the definitions mentions the `/` operator. -/
def noDivision (defs : UnitDefinitions) : Bool :=
  defs.all fun cat => cat.2.all fun u =>
    match u.2.derived with
    | none => true
    | some e => (splitWs e).all (fun t => t ≠ "/")

/-- The base-unit table built from `defsKmFirst`. -/
def kmFirstBaseMap : BaseUnitMap :=
  match construct_base_units_map [] defsKmFirst with
  | .ok m => m
  | .error _ => []

/-- The `*`-lookups of a derived-unit table are symmetric. -/
def SymMap (m : UnitMap) : Prop :=
  ∀ a b : String, mapLookup m (a, "*", b) = mapLookup m (b, "*", a)

theorem pNum_assignFree {s : List Char} {e : Expr} {r : List Char}
    (h : pNum s = some (e, r)) : assignFree e = true := by
  simp only [pNum] at h
  split at h
  · exact Option.noConfusion h
  · split at h
    · obtain ⟨rfl, rfl⟩ := Prod.mk.inj (Option.some.inj h)
      rfl
    · obtain ⟨rfl, rfl⟩ := Prod.mk.inj (Option.some.inj h)
      rfl

theorem parsers_assignFree : ∀ fuel : Nat,
    (∀ s e r, pParen fuel s = some (e, r) → assignFree e = true) ∧
    (∀ s e r, pAtom fuel s = some (e, r) → assignFree e = true) ∧
    (∀ s e r, pUnary fuel s = some (e, r) → assignFree e = true) ∧
    (∀ lhs s e r, assignFree lhs = true → pProductLoop fuel lhs s = some (e, r) →
      assignFree e = true) ∧
    (∀ s e r, pProduct fuel s = some (e, r) → assignFree e = true) ∧
    (∀ lhs s e r, assignFree lhs = true → pSumLoop fuel lhs s = some (e, r) →
      assignFree e = true) ∧
    (∀ s e r, pSum fuel s = some (e, r) → assignFree e = true) := by
  intro fuel
  induction fuel with
  | zero =>
      refine ⟨?_, ?_, ?_, ?_, ?_, ?_, ?_⟩ <;>
        simp [pParen, pAtom, pUnary, pProductLoop, pProduct, pSumLoop, pSum]
  | succ n ih =>
      obtain ⟨ihParen, ihAtom, ihUnary, ihPLoop, ihProd, ihSLoop, ihSum⟩ := ih
      refine ⟨?_, ?_, ?_, ?_, ?_, ?_, ?_⟩
      · intro s e r h
        simp only [pParen] at h
        split at h
        · split at h
          · split at h
            · obtain ⟨rfl, rfl⟩ := Prod.mk.inj (Option.some.inj h)
              exact ihSum _ _ _ (by assumption)
            · exact Option.noConfusion h
          · exact Option.noConfusion h
        · exact Option.noConfusion h
      · intro s e r h
        simp only [pAtom] at h
        split at h
        · obtain ⟨rfl, rfl⟩ := Prod.mk.inj (Option.some.inj h)
          exact pNum_assignFree (by assumption)
        · split at h
          · obtain ⟨rfl, rfl⟩ := Prod.mk.inj (Option.some.inj h)
            exact ihParen _ _ _ (by assumption)
          · split at h
            · obtain ⟨rfl, rfl⟩ := Prod.mk.inj (Option.some.inj h)
              rfl
            · exact Option.noConfusion h
      · intro s e r h
        simp only [pUnary] at h
        split at h
        · split at h
          · obtain ⟨rfl, rfl⟩ := Prod.mk.inj (Option.some.inj h)
            simpa [assignFree] using ihUnary _ _ _ (by assumption)
          · exact Option.noConfusion h
        · exact ihAtom _ _ _ h
      · intro lhs s e r hfree h
        simp only [pProductLoop] at h
        split at h
        · split at h
          · refine ihPLoop _ _ _ _ ?_ h
            have hrhs := ihUnary _ _ _ (by assumption)
            simp [assignFree, hfree, hrhs]
          · obtain ⟨rfl, rfl⟩ := Prod.mk.inj (Option.some.inj h)
            exact hfree
        · split at h
          · refine ihPLoop _ _ _ _ ?_ h
            have hrhs := ihUnary _ _ _ (by assumption)
            simp [assignFree, hfree, hrhs]
          · obtain ⟨rfl, rfl⟩ := Prod.mk.inj (Option.some.inj h)
            exact hfree
        · obtain ⟨rfl, rfl⟩ := Prod.mk.inj (Option.some.inj h)
          exact hfree
      · intro s e r h
        simp only [pProduct] at h
        split at h
        · exact Option.noConfusion h
        · exact ihPLoop _ _ _ _ (ihUnary _ _ _ (by assumption)) h
      · intro lhs s e r hfree h
        simp only [pSumLoop] at h
        split at h
        · split at h
          · refine ihSLoop _ _ _ _ ?_ h
            have hrhs := ihProd _ _ _ (by assumption)
            simp [assignFree, hfree, hrhs]
          · obtain ⟨rfl, rfl⟩ := Prod.mk.inj (Option.some.inj h)
            exact hfree
        · split at h
          · refine ihSLoop _ _ _ _ ?_ h
            have hrhs := ihProd _ _ _ (by assumption)
            simp [assignFree, hfree, hrhs]
          · obtain ⟨rfl, rfl⟩ := Prod.mk.inj (Option.some.inj h)
            exact hfree
        · obtain ⟨rfl, rfl⟩ := Prod.mk.inj (Option.some.inj h)
          exact hfree
      · intro s e r h
        simp only [pSum] at h
        split at h
        · exact Option.noConfusion h
        · exact ihSLoop _ _ _ _ (ihProd _ _ _ (by assumption)) h

theorem parseCommand_topAssignOnly {cmd : String} {e : Expr}
    (h : parseCommand cmd = some e) : topAssignOnly e = true := by
  simp only [parseCommand] at h
  cases hA : pAssign (8 * cmd.data.length + 16) cmd.data with
  | some v =>
      obtain ⟨e0, r⟩ := v
      simp only [hA] at h
      by_cases hend : skipWs r = []
      · rw [if_pos hend] at h
        obtain rfl := Option.some.inj h
        simp only [pAssign] at hA
        split at hA
        · exact Option.noConfusion hA
        · split at hA
          · split at hA
            · obtain ⟨rfl, rfl⟩ := Prod.mk.inj (Option.some.inj hA)
              rename_i hsum
              simpa [topAssignOnly] using
                ((parsers_assignFree _).2.2.2.2.2.2) _ _ _ hsum
            · exact Option.noConfusion hA
          · exact Option.noConfusion hA
      · rw [if_neg hend] at h
        exact Option.noConfusion h
  | none =>
      simp only [hA] at h
      cases hT : pTo (8 * cmd.data.length + 16) cmd.data with
      | none =>
          simp only [hT] at h
          exact Option.noConfusion h
      | some v =>
          obtain ⟨e0, r⟩ := v
          simp only [hT] at h
          by_cases hend : skipWs r = []
          · rw [if_pos hend] at h
            obtain rfl := Option.some.inj h
            simp only [pTo] at hT
            split at hT
            · exact Option.noConfusion hT
            · rename_i hsum
              have hfree := ((parsers_assignFree _).2.2.2.2.2.2) _ _ _ hsum
              split at hT
              · split at hT
                · obtain ⟨rfl, rfl⟩ := Prod.mk.inj (Option.some.inj hT)
                  simpa [topAssignOnly, assignFree] using hfree
                · obtain ⟨rfl, rfl⟩ := Prod.mk.inj (Option.some.inj hT)
                  simpa [topAssignOnly, assignFree] using hfree
              · obtain ⟨rfl, rfl⟩ := Prod.mk.inj (Option.some.inj hT)
                simpa [topAssignOnly, assignFree] using hfree
          · rw [if_neg hend] at h
            exact Option.noConfusion h

theorem eval_assignFree_snd (tbl : UnitTable) :
    ∀ (e : Expr) (vars : Vars), assignFree e = true →
      (eval_expr tbl vars e).2 = vars := by
  intro e
  induction e with
  | num v u =>
      intro vars _
      simp only [eval_expr]
      split <;> rfl
  | var n =>
      intro vars _
      simp only [eval_expr]
      split <;> rfl
  | neg a iha =>
      intro vars hf
      simp only [assignFree] at hf
      simp only [eval_expr]
      split
      · rename_i e1 v1 heq1
        have := iha vars hf
        rw [heq1] at this
        exact this
      · rename_i val v1 heq1
        have := iha vars hf
        rw [heq1] at this
        exact this
  | add a b iha ihb =>
      intro vars hf
      simp only [assignFree, Bool.and_eq_true] at hf
      simp only [eval_expr]
      split
      · rename_i e1 v1 heq1
        have := iha vars hf.1
        rw [heq1] at this
        exact this
      · rename_i valA unitA v1 heq1
        have h1 : v1 = vars := by
          have := iha vars hf.1
          rw [heq1] at this
          exact this
        split
        · rename_i e2 v2 heq2
          have h2 : v2 = v1 := by
            have := ihb v1 hf.2
            rw [heq2] at this
            exact this
          exact h2.trans h1
        · rename_i valB unitB v2 heq2
          have h2 : v2 = v1 := by
            have := ihb v1 hf.2
            rw [heq2] at this
            exact this
          split
          · exact h2.trans h1
          · exact h2.trans h1
  | sub a b iha ihb =>
      intro vars hf
      simp only [assignFree, Bool.and_eq_true] at hf
      simp only [eval_expr]
      split
      · rename_i e1 v1 heq1
        have := iha vars hf.1
        rw [heq1] at this
        exact this
      · rename_i valA unitA v1 heq1
        have h1 : v1 = vars := by
          have := iha vars hf.1
          rw [heq1] at this
          exact this
        split
        · rename_i e2 v2 heq2
          have h2 : v2 = v1 := by
            have := ihb v1 hf.2
            rw [heq2] at this
            exact this
          exact h2.trans h1
        · rename_i valB unitB v2 heq2
          have h2 : v2 = v1 := by
            have := ihb v1 hf.2
            rw [heq2] at this
            exact this
          split
          · exact h2.trans h1
          · exact h2.trans h1
  | mul a b iha ihb =>
      intro vars hf
      simp only [assignFree, Bool.and_eq_true] at hf
      simp only [eval_expr]
      split
      · rename_i e1 v1 heq1
        have := iha vars hf.1
        rw [heq1] at this
        exact this
      · rename_i valA unitA v1 heq1
        have h1 : v1 = vars := by
          have := iha vars hf.1
          rw [heq1] at this
          exact this
        split
        · rename_i e2 v2 heq2
          have h2 : v2 = v1 := by
            have := ihb v1 hf.2
            rw [heq2] at this
            exact this
          exact h2.trans h1
        · rename_i valB unitB v2 heq2
          have h2 : v2 = v1 := by
            have := ihb v1 hf.2
            rw [heq2] at this
            exact this
          split
          all_goals try split
          all_goals try split
          all_goals exact h2.trans h1
  | div a b iha ihb =>
      intro vars hf
      simp only [assignFree, Bool.and_eq_true] at hf
      simp only [eval_expr]
      split
      · rename_i e1 v1 heq1
        have := iha vars hf.1
        rw [heq1] at this
        exact this
      · rename_i valA unitA v1 heq1
        have h1 : v1 = vars := by
          have := iha vars hf.1
          rw [heq1] at this
          exact this
        split
        · rename_i e2 v2 heq2
          have h2 : v2 = v1 := by
            have := ihb v1 hf.2
            rw [heq2] at this
            exact this
          exact h2.trans h1
        · rename_i valB unitB v2 heq2
          have h2 : v2 = v1 := by
            have := ihb v1 hf.2
            rw [heq2] at this
            exact this
          split
          all_goals try split
          all_goals try split
          all_goals exact h2.trans h1
  | assign n rhs ih =>
      intro vars hf
      simp only [assignFree] at hf
      exact Bool.noConfusion hf
  | To a u iha =>
      intro vars hf
      simp only [assignFree] at hf
      simp only [eval_expr]
      split
      · rename_i e1 v1 heq1
        have := iha vars hf
        rw [heq1] at this
        exact this
      · rename_i val cu v1 heq1
        have h1 : v1 = vars := by
          have := iha vars hf
          rw [heq1] at this
          exact this
        cases u with
        | none => exact h1
        | some us =>
            split
            all_goals try split
            all_goals try split
            all_goals exact h1

theorem eval_top_error_snd (tbl : UnitTable) {e : Expr} {vars : Vars}
    {msg : String} {v' : Vars} (htop : topAssignOnly e = true)
    (h : eval_expr tbl vars e = (.error msg, v')) : v' = vars := by
  cases e with
  | assign name rhs =>
      simp only [topAssignOnly] at htop
      simp only [eval_expr] at h
      split at h
      · exact (Prod.mk.inj h).2.symm
      · split at h
        · rename_i e1 v1 heq1
          obtain ⟨-, rfl⟩ := Prod.mk.inj h
          have := eval_assignFree_snd tbl rhs vars htop
          rw [heq1] at this
          exact this
        · exact Except.noConfusion (Prod.mk.inj h).1
  | num v u =>
      have := eval_assignFree_snd tbl (.num v u) vars (by simpa [topAssignOnly] using htop)
      rw [h] at this
      exact this
  | var n =>
      have := eval_assignFree_snd tbl (.var n) vars (by simpa [topAssignOnly] using htop)
      rw [h] at this
      exact this
  | neg a =>
      have := eval_assignFree_snd tbl (.neg a) vars (by simpa [topAssignOnly] using htop)
      rw [h] at this
      exact this
  | add a b =>
      have := eval_assignFree_snd tbl (.add a b) vars (by simpa [topAssignOnly] using htop)
      rw [h] at this
      exact this
  | sub a b =>
      have := eval_assignFree_snd tbl (.sub a b) vars (by simpa [topAssignOnly] using htop)
      rw [h] at this
      exact this
  | mul a b =>
      have := eval_assignFree_snd tbl (.mul a b) vars (by simpa [topAssignOnly] using htop)
      rw [h] at this
      exact this
  | div a b =>
      have := eval_assignFree_snd tbl (.div a b) vars (by simpa [topAssignOnly] using htop)
      rw [h] at this
      exact this
  | To a u =>
      have := eval_assignFree_snd tbl (.To a u) vars (by simpa [topAssignOnly] using htop)
      rw [h] at this
      exact this

theorem exec_error_env (tbl : UnitTable) (vars : Vars) (cmd : String)
    {msg : String} {v' : Vars}
    (h : execute_command tbl vars cmd = (.error msg, v')) : v' = vars := by
  simp only [execute_command] at h
  cases hp : parseCommand cmd with
  | none =>
      simp only [hp] at h
      exact (Prod.mk.inj h).2.symm
  | some parsed =>
      simp only [hp] at h
      cases he : eval_expr tbl vars parsed with
      | mk res v1 =>
          simp only [he] at h
          cases res with
          | error e1 =>
              obtain ⟨-, rfl⟩ := Prod.mk.inj h
              exact eval_top_error_snd tbl (parseCommand_topAssignOnly hp) he
          | ok r =>
              exact Except.noConfusion (Prod.mk.inj h).1

theorem lookup_slash_star (m : UnitMap) (k1 k2 a b : String) (v : String) :
    mapLookup (mapInsert m (k1, "/", k2) v) (a, "*", b) =
      mapLookup m (a, "*", b) := by
  simp only [mapInsert, mapLookup]
  rw [if_neg]
  intro hc
  obtain ⟨-, h23⟩ := Prod.mk.inj hc
  obtain ⟨hop, -⟩ := Prod.mk.inj h23
  exact absurd hop (by decide)

theorem lookup_star_insert (m : UnitMap) (x y a b : String) (v : String) :
    mapLookup (mapInsert m (x, "*", y) v) (a, "*", b) =
      if x = a ∧ y = b then some v else mapLookup m (a, "*", b) := by
  simp only [mapInsert, mapLookup]
  by_cases hx : x = a ∧ y = b
  · rw [if_pos hx, if_pos]
    rw [hx.1, hx.2]
  · rw [if_neg hx, if_neg]
    intro hc
    obtain ⟨h1, h23⟩ := Prod.mk.inj hc
    obtain ⟨-, h3⟩ := Prod.mk.inj h23
    exact hx ⟨h1, h3⟩

theorem symMap_registerMul {m : UnitMap} (h : SymMap m) (x y r : String) :
    SymMap (registerMul m x y r) := by
  intro a b
  unfold registerMul
  rw [lookup_slash_star, lookup_slash_star, lookup_star_insert, lookup_star_insert,
      lookup_slash_star, lookup_slash_star, lookup_star_insert, lookup_star_insert]
  by_cases hC1 : y = a ∧ x = b
  · have hD2 : x = b ∧ y = a := ⟨hC1.2, hC1.1⟩
    by_cases hD1 : y = b ∧ x = a
    · simp [hC1, hD1]
    · simp [hC1, hD1, hD2]
  · have hD2 : ¬(x = b ∧ y = a) := fun hc => hC1 ⟨hc.2, hc.1⟩
    by_cases hC2 : x = a ∧ y = b
    · have hD1 : y = b ∧ x = a := ⟨hC2.2, hC2.1⟩
      simp [hC1, hC2, hD1]
    · have hD1 : ¬(y = b ∧ x = a) := fun hc => hC2 ⟨hc.2, hc.1⟩
      simp [hC1, hC2, hD1, hD2, h a b]

theorem symMap_processSteps (allUnits : List (String × UnitDefinition))
    (target category expr : String) :
    ∀ (n : Nat) (chain : List String), chain.length ≤ n →
      ∀ (m : UnitMap) (cur : String) (m' : UnitMap),
        (∀ t ∈ chain, t ≠ "/") → SymMap m →
        processSteps allUnits target category expr m cur chain = .ok m' →
        SymMap m' := by
  intro n
  induction n with
  | zero =>
      intro chain hlen m cur m' hops hsym hrun
      cases chain with
      | nil =>
          simp only [processSteps] at hrun
          obtain rfl := Except.ok.inj hrun
          exact hsym
      | cons x xs => simp at hlen
  | succ n ihn =>
      intro chain hlen m cur m' hops hsym hrun
      match chain with
      | [] =>
          simp only [processSteps] at hrun
          obtain rfl := Except.ok.inj hrun
          exact hsym
      | [x] =>
          simp only [processSteps] at hrun
          obtain rfl := Except.ok.inj hrun
          exact hsym
      | op :: nextUnit :: rest =>
          simp only [processSteps] at hrun
          split at hrun
          · exact Except.noConfusion hrun
          · split at hrun
            · exact Except.noConfusion hrun
            · split at hrun
              · exact Except.noConfusion hrun
              · rename_i hcond _ _ resultUnit heqres
                have hop : op ≠ "/" := hops op (by simp)
                have hopstar : op = "*" := by
                  rcases not_and_or.mp hcond with hc | hc
                  · exact not_not.mp hc
                  · exact absurd (not_not.mp hc) hop
                rw [if_pos hopstar] at hrun
                have hlen2 : rest.length ≤ n := by
                  simp only [List.length_cons] at hlen
                  omega
                refine ihn rest hlen2 _ _ _ ?_ ?_ hrun
                · intro t ht
                  exact hops t (by simp [ht])
                · subst hopstar
                  exact symMap_registerMul hsym cur nextUnit resultUnit

theorem symMap_processUnits (allUnits : List (String × UnitDefinition))
    (category : String) :
    ∀ (units : List (String × UnitDefinition)) (m m' : UnitMap),
      (∀ u ∈ units, ∀ ex, u.2.derived = some ex → ∀ t ∈ splitWs ex, t ≠ "/") →
      SymMap m →
      processUnits allUnits category m units = .ok m' → SymMap m' := by
  intro units
  induction units with
  | nil =>
      intro m m' _ hsym hrun
      simp only [processUnits] at hrun
      obtain rfl := Except.ok.inj hrun
      exact hsym
  | cons ud rest ih =>
      intro m m' hnd hsym hrun
      obtain ⟨unit, unitDef⟩ := ud
      simp only [processUnits] at hrun
      cases hder : unitDef.derived with
      | none =>
          simp only [hder] at hrun
          exact ih _ _ (fun u hu => hnd u (by simp [hu])) hsym hrun
      | some ex =>
          simp only [hder] at hrun
          split at hrun
          · split at hrun
            · exact Except.noConfusion hrun
            · rename_i currentUnit chain hparts
              split at hrun
              · exact Except.noConfusion hrun
              · split at hrun
                · exact Except.noConfusion hrun
                · rename_i m'' hsteps
                  refine ih _ _ (fun u hu => hnd u (by simp [hu])) ?_ hrun
                  refine symMap_processSteps allUnits unit category ex
                    chain.length chain le_rfl m currentUnit m'' ?_ hsym hsteps
                  intro t ht
                  refine hnd (unit, unitDef) (by simp) ex hder t ?_
                  rw [hparts]
                  exact List.mem_cons_of_mem _ ht
          · exact Except.noConfusion hrun

theorem symMap_processCategories (allUnits : List (String × UnitDefinition)) :
    ∀ (cats : UnitDefinitions) (m m' : UnitMap),
      (∀ c ∈ cats, ∀ u ∈ c.2, ∀ ex, u.2.derived = some ex →
        ∀ t ∈ splitWs ex, t ≠ "/") →
      SymMap m →
      processCategories allUnits m cats = .ok m' → SymMap m' := by
  intro cats
  induction cats with
  | nil =>
      intro m m' _ hsym hrun
      simp only [processCategories] at hrun
      obtain rfl := Except.ok.inj hrun
      exact hsym
  | cons c rest ih =>
      intro m m' hnd hsym hrun
      obtain ⟨category, units⟩ := c
      simp only [processCategories] at hrun
      split at hrun
      · exact Except.noConfusion hrun
      · rename_i m'' hunits
        refine ih _ _ (fun c hc => hnd c (by simp [hc])) ?_ hrun
        exact symMap_processUnits allUnits category units m m''
          (fun u hu => hnd (category, units) (by simp) u hu) hsym hunits

theorem noDivision_spec {defs : UnitDefinitions} (h : noDivision defs = true) :
    ∀ c ∈ defs, ∀ u ∈ c.2, ∀ ex, u.2.derived = some ex →
      ∀ t ∈ splitWs ex, t ≠ "/" := by
  intro c hc u hu ex hex t ht
  simp only [noDivision, List.all_eq_true] at h
  have hcu := h c hc u hu
  rw [hex] at hcu
  simp only [List.all_eq_true] at hcu
  have := hcu t ht
  simpa using this

theorem construct_symMap {defs : UnitDefinitions} {m : UnitMap}
    (hnd : noDivision defs = true)
    (hok : construct_unit_translation_map defs = .ok m) : SymMap m := by
  simp only [construct_unit_translation_map] at hok
  split at hok
  · exact Except.noConfusion hok
  · rename_i allU _
    exact symMap_processCategories allU defs [] m (noDivision_spec hnd)
      (fun a b => rfl) hok

theorem lookup_insertUnitsOfCat_skip (baseUnit : String) {k : String} :
    ∀ (us : List (String × UnitDefinition)) (m : BaseUnitMap),
      (∀ u ∈ us, u.1 ≠ k) →
      mapLookup (insertUnitsOfCat baseUnit m us) k = mapLookup m k := by
  intro us
  induction us with
  | nil => intro m _; rfl
  | cons u rest ih =>
      intro m hk
      obtain ⟨k0, d0⟩ := u
      simp only [insertUnitsOfCat]
      rw [ih _ (fun u hu => hk u (by simp [hu]))]
      simp only [mapInsert, mapLookup]
      rw [if_neg (hk (k0, d0) (by simp))]

theorem lookup_construct_base_skip {k : String} :
    ∀ (ds : UnitDefinitions) (m0 m : BaseUnitMap),
      (∀ c ∈ ds, ∀ u ∈ c.2, u.1 ≠ k) →
      construct_base_units_map m0 ds = .ok m →
      mapLookup m k = mapLookup m0 k := by
  intro ds
  induction ds with
  | nil =>
      intro m0 m _ hrun
      simp only [construct_base_units_map] at hrun
      obtain rfl := Except.ok.inj hrun
      rfl
  | cons c rest ih =>
      intro m0 m hk hrun
      obtain ⟨category, units⟩ := c
      cases units with
      | nil =>
          simp only [construct_base_units_map] at hrun
          exact Except.noConfusion hrun
      | cons u0 urest =>
          obtain ⟨bk, bd⟩ := u0
          simp only [construct_base_units_map] at hrun
          rw [ih _ _ (fun c hc => hk c (by simp [hc])) hrun]
          exact lookup_insertUnitsOfCat_skip bk ((bk, bd) :: urest) m0
            (fun u hu => hk (category, (bk, bd) :: urest) (by simp) u hu)

theorem lookup_base_first_unit {k : String} {d : UnitDefinition}
    {cat : String} {rest : List (String × UnitDefinition)} :
    ∀ (pre : UnitDefinitions) (post : UnitDefinitions) (m0 m : BaseUnitMap),
      (∀ c ∈ pre, ∀ u ∈ c.2, u.1 ≠ k) →
      (∀ c ∈ post, ∀ u ∈ c.2, u.1 ≠ k) →
      (∀ u ∈ rest, u.1 ≠ k) →
      construct_base_units_map m0 (pre ++ (cat, (k, d) :: rest) :: post) = .ok m →
      mapLookup m k = some (d.factor, k) := by
  intro pre
  induction pre with
  | nil =>
      intro post m0 m _ hpost hrest hrun
      simp only [List.nil_append, construct_base_units_map] at hrun
      rw [lookup_construct_base_skip post _ m hpost hrun]
      simp only [insertUnitsOfCat]
      rw [lookup_insertUnitsOfCat_skip k rest _ hrest]
      simp [mapInsert, mapLookup]
  | cons c pre' ih =>
      intro post m0 m hpre hpost hrest hrun
      obtain ⟨category, units⟩ := c
      cases units with
      | nil =>
          simp only [List.cons_append, construct_base_units_map] at hrun
          exact Except.noConfusion hrun
      | cons u0 urest =>
          simp only [List.cons_append, construct_base_units_map] at hrun
          exact ih post _ m (fun c hc => hpre c (by simp [hc])) hpost hrest hrun

theorem ne_key_slash_star (k1 k2 a b : String) :
    ((k1, "/", k2) : String × String × String) ≠ (a, "*", b) := by
  intro hc
  exact absurd (Prod.mk.inj (Prod.mk.inj hc).2).1 (by decide)

theorem ne_key_star_slash (k1 k2 a b : String) :
    ((k1, "*", k2) : String × String × String) ≠ (a, "/", b) := by
  intro hc
  exact absurd (Prod.mk.inj (Prod.mk.inj hc).2).1 (by decide)

/-- Claim C1 (code bug): the spec says a literal with no unit symbol
evaluates to `(value, "")`, and the crate's own tests
(`test_eval_without_unit`: `"1 + 2 * 3"` gives `Ok((7.0, ""))`) assert the
same; but `eval_expr` looks the empty unit string up in `base_units_map`,
which never contains `""`, so every dimensionless literal fails with
`Unknown unit: ""`. -/
theorem unitless_literal_rejected :
    execute_command (tblOf []) [] "1 + 2 * 3" = (.error "Unknown unit: \"\"", []) ∧
    eval_expr (tblOf []) [] (.num (.fin ⟨1, 1⟩) "") =
      (.error "Unknown unit: \"\"", []) := by
  constructor
  · decide
  · decide

/-- Claim C2 (confirmed): addition and subtraction require the operands'
unit keys to be equal — differing keys (including dimensionless vs
unit-bearing) fail with the incompatible-units error, equal keys combine
the values under the shared unit; and `"1 m + 2 cm"` under
`{length: m, cm(0.01)}` yields `(1.02, "m")` (the fraction `102/100`). -/
theorem add_sub_unit_check :
    (∀ (tbl : UnitTable) (vars : Vars) (a b : Expr) (va vb : FP)
        (ua ub : String) (v1 v2 : Vars),
      eval_expr tbl vars a = (.ok (va, ua), v1) →
      eval_expr tbl v1 b = (.ok (vb, ub), v2) →
      (ua ≠ ub →
        eval_expr tbl vars (.add a b) =
          (.error s!"Cannot evaluate \"{ua}\" + \"{ub}\"", v2) ∧
        eval_expr tbl vars (.sub a b) =
          (.error s!"Cannot evaluate \"{ua}\" - \"{ub}\"", v2)) ∧
      (ua = ub →
        eval_expr tbl vars (.add a b) = (.ok (va.add vb, ub), v2) ∧
        eval_expr tbl vars (.sub a b) = (.ok (va.sub vb, ub), v2))) ∧
    execute_command (tblOf defsLenM) [] "1 m + 2 cm" =
      (.ok (.fin ⟨102, 100⟩, "m"), [("$", (.fin ⟨102, 100⟩, "m"))]) ∧
    (Frac.mk 102 100).val = 51 / 50 := by
  refine ⟨?_, by decide, by norm_num [Frac.val]⟩
  intro tbl vars a b va vb ua ub v1 v2 ha hb
  constructor
  · intro hne
    constructor
    · simp only [eval_expr, ha, hb]
      rw [if_pos hne]
    · simp only [eval_expr, ha, hb]
      rw [if_pos hne]
  · intro heq
    constructor
    · simp only [eval_expr, ha, hb]
      rw [if_neg (not_not_intro heq)]
    · simp only [eval_expr, ha, hb]
      rw [if_neg (not_not_intro heq)]

/-- Witness for `add_sub_unit_check` at `{length: m; time: s}`:
`1 m + 2 s` fails with the incompatible-units error. -/
theorem add_sub_unit_check_witness :
    eval_expr (tblOf defsSpeed) []
        (.add (.num (.fin ⟨1, 1⟩) "m") (.num (.fin ⟨2, 1⟩) "s")) =
      (.error "Cannot evaluate \"m\" + \"s\"", []) :=
  ((add_sub_unit_check.1 (tblOf defsSpeed) []
      (.num (.fin ⟨1, 1⟩) "m") (.num (.fin ⟨2, 1⟩) "s")
      (.fin ⟨1, 1⟩) (.fin ⟨2, 1⟩) "m" "s" [] []
      (by decide) (by decide)).1 (by decide)).1

/-- Claim C3 (confirmed): explicit conversion `e >> target` fails with
`Unknown unit` when `target` is not in `baseUnits`, fails with the
"cannot convert" error when `target`'s base unit differs from `e`'s unit
key, and otherwise yields `(value / factor, target)` labelled with the
requested surface symbol; `"1 m >> cm"` gives `(100.0, "cm")` and
`"1 m >> second"` fails with `Unknown unit`. -/
theorem conversion_semantics :
    (∀ (tbl : UnitTable) (vars : Vars) (e : Expr) (val : FP)
        (unitKey : String) (v1 : Vars) (target : String),
      eval_expr tbl vars e = (.ok (val, unitKey), v1) →
      (mapLookup tbl.base_units_map target = none →
        eval_expr tbl vars (.To e (some target)) =
          (.error s!"Unknown unit {target}", v1)) ∧
      (∀ factor baseUnit,
        mapLookup tbl.base_units_map target = some (factor, baseUnit) →
        (unitKey ≠ baseUnit →
          eval_expr tbl vars (.To e (some target)) =
            (.error s!"Cannot convert to unit \"{target}\"", v1)) ∧
        (unitKey = baseUnit →
          eval_expr tbl vars (.To e (some target)) =
            (.ok (val.div (.fin factor), target), v1)))) ∧
    execute_command (tblOf defsLenM) [] "1 m >> cm" =
      (.ok (.fin ⟨100, 1⟩, "cm"), [("$", (.fin ⟨100, 1⟩, "cm"))]) ∧
    execute_command (tblOf defsLenM) [] "1 m >> second" =
      (.error "Unknown unit second", []) := by
  refine ⟨?_, by decide, by decide⟩
  intro tbl vars e val unitKey v1 target he
  constructor
  · intro hnone
    simp only [eval_expr, he, hnone]
  · intro factor baseUnit hsome
    constructor
    · intro hne
      simp only [eval_expr, he, hsome]
      rw [if_pos hne]
    · intro heq
      simp only [eval_expr, he, hsome]
      rw [if_neg (not_not_intro heq)]

/-- Witness for `conversion_semantics`: converting `1 m` to `cm` under
`{length: m, cm(0.01)}` divides by the factor and labels the result `cm`. -/
theorem conversion_semantics_witness :
    eval_expr (tblOf defsLenM) [] (.To (.num (.fin ⟨1, 1⟩) "m") (some "cm")) =
      (.ok ((FP.fin ⟨1, 1⟩).div (.fin ⟨1, 100⟩), "cm"), []) :=
  ((conversion_semantics.1 (tblOf defsLenM) [] (.num (.fin ⟨1, 1⟩) "m")
      (.fin ⟨1, 1⟩) "m" [] "cm" (by decide)).2 ⟨1, 100⟩ "m"
      (by decide)).2 (by decide)

/-- Claim C4 (counterexample): the spec says assignment is an expression
usable nested inside a larger expression, but the grammar's `expr`
nonterminal has no assignment alternative — a nested assignment is a parse
error. -/
theorem nested_assignment_cex :
    parseCommand "1 m + (x = 2 m)" = none ∧
    execute_command (tblOf defsLenM) [] "1 m + (x = 2 m)" =
      (.error "parse error", []) := by
  constructor
  · decide
  · decide

/-- Claim C4 (amended): assignment is available only as the entire command:
every parsed command has assignments at most at its root, a whole-command
assignment stores the binding and yields the assigned (value, unit), and a
parenthesized assignment inside a sum fails to parse. -/
theorem assignment_top_level_only :
    (∀ (cmd : String) (e : Expr), parseCommand cmd = some e →
      topAssignOnly e = true) ∧
    execute_command (tblOf defsLenM) [] "x = 5 m" =
      (.ok (.fin ⟨5, 1⟩, "m"),
        [("$", (.fin ⟨5, 1⟩, "m")), ("x", (.fin ⟨5, 1⟩, "m"))]) ∧
    parseCommand "(x = 2) + 1" = none := by
  refine ⟨?_, by decide, by decide⟩
  intro cmd e h
  exact parseCommand_topAssignOnly h

/-- Witness for `assignment_top_level_only`: the parse of `"x = 5 m"` is an
assignment at the root. -/
theorem assignment_top_level_only_witness :
    topAssignOnly (Expr.assign "x" (.num (.fin ⟨5, 1⟩) "m")) = true :=
  assignment_top_level_only.1 "x = 5 m"
    (Expr.assign "x" (.num (.fin ⟨5, 1⟩) "m")) (by decide)

/-- Claim C5 (counterexample): commutativity fails for `*`-entries produced
by a division registration — with `{length: m; time: s; speed: mps = m / s}`
the table maps `(mps, *, s) → m` but has no entry for `(s, *, mps)`. -/
theorem mul_commutativity_cex :
    construct_unit_translation_map defsSpeed = .ok speedMap ∧
    mapLookup speedMap ("mps", "*", "s") = some "m" ∧
    mapLookup speedMap ("s", "*", "mps") = none := by
  refine ⟨by decide, by decide, by decide⟩

/-- Claim C5 (amended): for definitions whose derived expressions use only
multiplication, every registered entry `(A, *, B) → C` has its commuted
companion `(B, *, A) → C` — the division registration step is the only one
that breaks this. -/
theorem mul_commutativity_noDivision :
    ∀ (defs : UnitDefinitions) (m : UnitMap), noDivision defs = true →
      construct_unit_translation_map defs = .ok m →
      ∀ a b c, mapLookup m (a, "*", b) = some c →
        mapLookup m (b, "*", a) = some c := by
  intro defs m hnd hok a b c h
  exact (construct_symMap hnd hok a b).symm.trans h

/-- Witness for `mul_commutativity_noDivision` on the multiplication-only
definitions `{m; m2 = m * m; m3 = m * m * m}`: `(m2, *, m) → m3` gives
`(m, *, m2) → m3`. -/
theorem mul_commutativity_noDivision_witness :
    mapLookup volMap ("m", "*", "m2") = some "m3" :=
  mul_commutativity_noDivision defsVol volMap (by decide) (by decide)
    "m2" "m" "m3" (by decide)

/-- Claim C6 (counterexample): inverse consistency fails on the final map —
with `{length: m; time: s; speed: mps = m / s}` the entry
`(m, /, mps) → s` is present, but the entry `(s, *, mps) → m` required by
the claim's rule for division entries is absent. -/
theorem inverse_consistency_cex :
    construct_unit_translation_map defsSpeed = .ok speedMap ∧
    mapLookup speedMap ("m", "/", "mps") = some "s" ∧
    mapLookup speedMap ("s", "*", "mps") = none := by
  refine ⟨by decide, by decide, by decide⟩

/-- Claim C6 (amended): each multiplication registration `C = A * B` makes
`(A,*,B) → C`, `(B,*,A) → C`, `(C,/,A) → B`, `(C,/,B) → A` all resolve
immediately afterwards, and each division registration `C = A / B` makes
`(A,/,B) → C`, `(A,/,C) → B`, `(C,*,B) → A` resolve — but a division
registration never inserts `(B,*,C) → A`, so the claim's inverse rules hold
step-locally and only the multiplication fragment is fully closed. -/
theorem register_step_inverse :
    (∀ (m : UnitMap) (a b r : String),
      mapLookup (registerMul m a b r) (a, "*", b) = some r ∧
      mapLookup (registerMul m a b r) (b, "*", a) = some r ∧
      mapLookup (registerMul m a b r) (r, "/", a) = some b ∧
      mapLookup (registerMul m a b r) (r, "/", b) = some a) ∧
    (∀ (m : UnitMap) (a b r : String),
      mapLookup (registerDiv m a b r) (a, "/", b) = some r ∧
      mapLookup (registerDiv m a b r) (a, "/", r) = some b ∧
      mapLookup (registerDiv m a b r) (r, "*", b) = some a) ∧
    mapLookup (registerDiv [] "a" "b" "r") ("b", "*", "r") = none := by
  refine ⟨?_, ?_, by decide⟩
  · intro m a b r
    refine ⟨?_, ?_, ?_, ?_⟩
    · simp only [registerMul, mapInsert, mapLookup]
      rw [if_neg (ne_key_slash_star _ _ _ _), if_neg (ne_key_slash_star _ _ _ _)]
      by_cases hba : ((b, "*", a) : String × String × String) = (a, "*", b)
      · rw [if_pos hba]
      · rw [if_neg hba]
        simp
    · simp only [registerMul, mapInsert, mapLookup]
      rw [if_neg (ne_key_slash_star _ _ _ _), if_neg (ne_key_slash_star _ _ _ _)]
      simp
    · simp only [registerMul, mapInsert, mapLookup]
      by_cases hba : b = a
      · subst hba
        simp
      · rw [if_neg fun hc => hba (Prod.mk.inj (Prod.mk.inj hc).2).2]
        simp
    · simp only [registerMul, mapInsert, mapLookup]
      simp
  · intro m a b r
    refine ⟨?_, ?_, ?_⟩
    · simp only [registerDiv, mapInsert, mapLookup]
      rw [if_neg (ne_key_star_slash _ _ _ _)]
      by_cases hrb : r = b
      · subst hrb
        simp
      · rw [if_neg fun hc => hrb (Prod.mk.inj (Prod.mk.inj hc).2).2]
        simp
    · simp only [registerDiv, mapInsert, mapLookup]
      rw [if_neg (ne_key_star_slash _ _ _ _)]
      simp
    · simp only [registerDiv, mapInsert, mapLookup]
      simp

/-- Claim C7 (counterexample): chain derivation is enumeration-order
dependent, not order-independent — with the same definitions
`{m; m2 = m * m; m3 = m * m * m}` but the `volume` category enumerated
first, construction fails because the intermediate product `m * m` is not
yet registered. -/
theorem chain_order_cex :
    construct_unit_translation_map defsVolBad =
      .error (.invalidDerivedExpression
        "Cannot find intermediate unit for: m * m") := by
  decide

/-- Claim C7 (amended): with the definitions enumerated so that
`m2 = m * m` is processed before `m3 = m * m * m`, registry construction
succeeds and resolves `(m2, *, m) → m3` and `(m3, /, m2) → m`; with `m3`
enumerated first it fails with `InvalidDerivedExpression`. -/
theorem chain_derivation_ordered :
    UnitTable.new defsVol = .ok (tblOf defsVol) ∧
    construct_unit_translation_map defsVol = .ok volMap ∧
    mapLookup volMap ("m2", "*", "m") = some "m3" ∧
    mapLookup volMap ("m3", "/", "m2") = some "m" ∧
    construct_unit_translation_map defsVolBad =
      .error (.invalidDerivedExpression
        "Cannot find intermediate unit for: m * m") := by
  refine ⟨by decide, by decide, by decide, by decide, by decide⟩

/-- Claim C8 (counterexample): the base-unit table maps a category's first
declared unit to its declared factor, not to `1.0` — declaring
`km (factor 1000)` first gives `baseUnits[km] = (1000, km)`. -/
theorem base_unit_factor_cex :
    construct_base_units_map [] defsKmFirst = .ok kmFirstBaseMap ∧
    mapLookup kmFirstBaseMap "km" = some (⟨1000, 1⟩, "km") ∧
    some ((⟨1000, 1⟩ : Frac), "km") ≠ some ((⟨1, 1⟩ : Frac), "km") := by
  refine ⟨by decide, by decide, by decide⟩

/-- Claim C8 (amended): for every category whose first declared unit is
declared with factor `1.0`, and whose key is not declared anywhere else
(the spec's global-uniqueness invariant), the constructed base-unit table
maps that first unit to `(1.0, itself)`. -/
theorem base_unit_reflexive :
    ∀ (pre post : UnitDefinitions) (cat k : String) (d : UnitDefinition)
      (rest : List (String × UnitDefinition)) (m : BaseUnitMap),
      (∀ c ∈ pre, ∀ u ∈ c.2, u.1 ≠ k) →
      (∀ c ∈ post, ∀ u ∈ c.2, u.1 ≠ k) →
      (∀ u ∈ rest, u.1 ≠ k) →
      d.factor = ⟨1, 1⟩ →
      construct_base_units_map [] (pre ++ (cat, (k, d) :: rest) :: post) =
        .ok m →
      mapLookup m k = some (⟨1, 1⟩, k) := by
  intro pre post cat k d rest m hpre hpost hrest hfac hok
  have := lookup_base_first_unit pre post [] m hpre hpost hrest hok
  rw [hfac] at this
  exact this

/-- Witness for `base_unit_reflexive` on `{length: m (factor 1), cm}`:
`baseUnits[m] = (1.0, m)`. -/
theorem base_unit_reflexive_witness :
    mapLookup [("cm", ((⟨1, 100⟩ : Frac), "m")), ("m", ((⟨1, 1⟩ : Frac), "m"))]
      "m" = some (⟨1, 1⟩, "m") :=
  base_unit_reflexive [] [] "length" "m" ⟨"meter", "m", ⟨1, 1⟩, none⟩
    [("cm", ⟨"centimeter", "cm", ⟨1, 100⟩, none⟩)]
    [("cm", (⟨1, 100⟩, "m")), ("m", (⟨1, 1⟩, "m"))]
    (by decide) (by decide) (by decide) (by decide) (by decide)

/-- Claim C9 (confirmed): `execute_command` is atomic on failure — whenever
it returns an error (parse or evaluation), the variable environment it
leaves behind is exactly the one it started from; the grammar admits
assignment only at the root of a command, and the binding (and the reserved
`$` result) are stored only after a fully successful evaluation. -/
theorem execute_error_env_unchanged :
    ∀ (tbl : UnitTable) (vars : Vars) (cmd : String) (msg : String)
      (v' : Vars),
      execute_command tbl vars cmd = (.error msg, v') → v' = vars := by
  intro tbl vars cmd msg v' h
  exact exec_error_env tbl vars cmd h

/-- Witness for `execute_error_env_unchanged`: a failing command
(`cm` is not declared in `defsSpeed`) leaves the pre-existing binding of
`y` untouched. -/
theorem execute_error_env_unchanged_witness :
    (execute_command (tblOf defsSpeed) [("y", (FP.fin ⟨1, 1⟩, ""))]
        "1 m + 2 cm").2 = [("y", (FP.fin ⟨1, 1⟩, ""))] :=
  execute_error_env_unchanged (tblOf defsSpeed)
    [("y", (FP.fin ⟨1, 1⟩, ""))] "1 m + 2 cm" "Unknown unit: \"cm\"" _
    (by decide)

/-- Claim C10 (confirmed): division never checks for a zero divisor — if
both operands evaluate and the unit pair is accepted (registered in the
derived table, or one side dimensionless), the result is `Ok` with the raw
floating-point quotient; `"1 m / 0 s"` with `mps = m / s` declared yields
the infinite value tagged `mps` rather than an error. -/
theorem division_by_zero_ok :
    (∀ (tbl : UnitTable) (vars : Vars) (a b : Expr) (va vb : FP)
        (ua ub : String) (v1 v2 : Vars),
      eval_expr tbl vars a = (.ok (va, ua), v1) →
      eval_expr tbl v1 b = (.ok (vb, ub), v2) →
      (∀ ru, mapLookup tbl.derived_units_map (ua, "/", ub) = some ru →
        eval_expr tbl vars (.div a b) = (.ok (va.div vb, ru), v2)) ∧
      (mapLookup tbl.derived_units_map (ua, "/", ub) = none → ua = "" →
        eval_expr tbl vars (.div a b) = (.ok (va.div vb, ub), v2)) ∧
      (mapLookup tbl.derived_units_map (ua, "/", ub) = none → ua ≠ "" →
        ub = "" →
        eval_expr tbl vars (.div a b) = (.ok (va.div vb, ua), v2))) ∧
    execute_command (tblOf defsSpeed) [] "1 m / 0 s" =
      (.ok (.inf, "mps"), [("$", (.inf, "mps"))]) := by
  refine ⟨?_, by decide⟩
  intro tbl vars a b va vb ua ub v1 v2 ha hb
  refine ⟨?_, ?_, ?_⟩
  · intro ru hru
    simp only [eval_expr, ha, hb, hru]
  · intro hnone hua
    simp only [eval_expr, ha, hb, hnone]
    rw [if_pos hua]
  · intro hnone hua hub
    simp only [eval_expr, ha, hb, hnone]
    rw [if_neg hua, if_pos hub]

/-- Witness for `division_by_zero_ok`: the division node of `1 m / 0 s`
evaluates to `Ok` with the infinite quotient tagged `mps`. -/
theorem division_by_zero_ok_witness :
    eval_expr (tblOf defsSpeed) []
        (.div (.num (.fin ⟨1, 1⟩) "m") (.num (.fin ⟨0, 1⟩) "s")) =
      (.ok ((FP.fin ⟨1, 1⟩).div (.fin ⟨0, 1⟩), "mps"), []) :=
  (division_by_zero_ok.1 (tblOf defsSpeed) []
      (.num (.fin ⟨1, 1⟩) "m") (.num (.fin ⟨0, 1⟩) "s")
      (.fin ⟨1, 1⟩) (.fin ⟨0, 1⟩) "m" "s" [] []
      (by decide) (by decide)).1 "mps" (by decide)
